import Mathlib

set_option maxRecDepth 100000

/-!
Verification of the roc-syntax-mcp server logic (src/src/index.ts).

The development shallowly embeds the pure core of the server:
  * JavaScript string primitives used by the code (`includes`, `startsWith`,
    `toLowerCase`, `split("\n")`, `Array.prototype.join`),
  * `parseSyntaxSections` with its ordered catalog of section rules,
  * the `TOPICS` table and the first-match topic resolver of the
    `search_roc_syntax` handler,
  * the per-topic section selector and example assembly,
  * `loadSyntaxReference` (the file read is modelled as an
    `Except String String` input: `ok` carries the file content, `error`
    carries the failure detail) and the three tool handlers.
-/

/-- Test `charListHasPre n h` is true when `n` is a prefix of `h`
(character-by-character comparison, as JavaScript `startsWith`). -/
def charListHasPre : List Char → List Char → Bool
  | [], _ => true
  | _ :: _, [] => false
  | a :: as, b :: bs => a == b && charListHasPre as bs

/-- Test `charListHasSub n h` is true when `n` occurs as a contiguous substring
of `h` (as JavaScript `String.prototype.includes`). -/
def charListHasSub (n : List Char) : List Char → Bool
  | [] => charListHasPre n []
  | c :: t => charListHasPre n (c :: t) || charListHasSub n t

/-- JavaScript `h.includes(n)`: `n` is a substring of `h`. -/
def strIncludes (h n : String) : Bool :=
  charListHasSub n.data h.data

/-- JavaScript `h.startsWith(p)`. -/
def strStarts (h p : String) : Bool :=
  charListHasPre p.data h.data

/-- JavaScript `String.prototype.toLowerCase` restricted to the ASCII
range, which covers every string the program manipulates. -/
def jsLower (s : String) : String :=
  String.mk (s.data.map Char.toLower)

/-- The whitespace class of the JavaScript regular-expression escape
`\s`, restricted to ASCII. -/
def isJsWs (c : Char) : Bool :=
  c == ' ' || c == '\t' || c == '\n' || c == '\r' || c == '\x0b' || c == '\x0c'

/-- Strip the exact prefix `pre` from `cs`, returning the remainder. -/
def dropPreChars : List Char → List Char → Option (List Char)
  | [], rest => some rest
  | _ :: _, [] => none
  | a :: as, b :: bs => if a == b then dropPreChars as bs else none

/-- Test for a regular expression of the shape `^pre\s*post` anchored at
the start of `line`, as used by the section rules in the source
(for example `/^number_operators\s*:/`). -/
def reAnchoredTest (pre post line : String) : Bool :=
  match dropPreChars pre.data line.data with
  | some rest => charListHasPre post.data (rest.dropWhile isJsWs)
  | none => false

/-- Test for `/^import\s+/`: the word followed by at least one
whitespace character. -/
def reWordWsTest (pre line : String) : Bool :=
  match dropPreChars pre.data line.data with
  | some (c :: _) => isJsWs c
  | _ => false

/-- JavaScript `content.split("\n")` on an explicit character list;
`accu` holds the characters of the current fragment in reverse. -/
def splitLinesAux : List Char → List Char → List String
  | [], accu => [String.mk accu.reverse]
  | c :: cs, accu =>
    if c == '\n' then String.mk accu.reverse :: splitLinesAux cs []
    else splitLinesAux cs (c :: accu)

/-- JavaScript `content.split("\n")`. -/
def splitLines (s : String) : List String :=
  splitLinesAux s.data []

/-- A parsed section of the reference document
(`interface SyntaxSection` in the source). -/
structure SyntaxSection where
  name : String
  content : String
  startLine : Nat
  endLine : Nat
  deriving DecidableEq

/-- One entry of the ordered `sectionPatterns` catalog: a section name
and the test of its line-anchored detection pattern. -/
structure SecRule where
  name : String
  test : String → Bool

/-- The ordered `sectionPatterns` catalog of the source, in declaration
order. -/
def sectionPatterns : List SecRule :=
  [ ⟨"number_operators", reAnchoredTest "number_operators" ":"⟩,
    ⟨"boolean_operators", reAnchoredTest "boolean_operators" ":"⟩,
    ⟨"simple_match", reAnchoredTest "simple_match" ":"⟩,
    ⟨"match_list_patterns", reAnchoredTest "match_list_patterns" ":"⟩,
    ⟨"match_tag_union_advanced", reAnchoredTest "match_tag_union_advanced" ":"⟩,
    ⟨"multiline_str", reAnchoredTest "multiline_str" ":"⟩,
    ⟨"effect_demo", reAnchoredTest "effect_demo!" ":"⟩,
    ⟨"for_loop", reAnchoredTest "for_loop" "="⟩,
    ⟨"dbg_keyword", reAnchoredTest "dbg_keyword" "="⟩,
    ⟨"if_demo", reAnchoredTest "if_demo" ":"⟩,
    ⟨"tuple_demo", reAnchoredTest "tuple_demo" "="⟩,
    ⟨"type_var", reAnchoredTest "type_var" ":"⟩,
    ⟨"destructuring", reAnchoredTest "destructuring" "="⟩,
    ⟨"record_update_2", reAnchoredTest "record_update_2" ":"⟩,
    ⟨"number_literals", reAnchoredTest "number_literals" "="⟩,
    ⟨"opaque_types", reAnchoredTest "Username" "::"⟩,
    ⟨"nominal_types", reAnchoredTest "Animal" ":="⟩,
    ⟨"early_return", reAnchoredTest "early_return" "="⟩,
    ⟨"where_clause", reAnchoredTest "stringify" ":"⟩,
    ⟨"main", reAnchoredTest "main!" "="⟩,
    ⟨"imports", reWordWsTest "import"⟩,
    ⟨"app_header", reAnchoredTest "app" "["⟩ ]

/-- First element of `l` satisfying `p`, in list order (the `for`/`break`
and `find` idioms of the source). -/
def firstSat {α : Type} (p : α → Bool) : List α → Option α
  | [] => none
  | a :: as => if p a then some a else firstSat p as

/-- The inner `for`-loop of `parseSyntaxSections`: the first rule of the
catalog whose pattern matches `line`. -/
def matchRule (rules : List SecRule) (line : String) : Option SecRule :=
  firstSat (fun r => r.test line) rules

/-- The main loop of `parseSyntaxSections`: `i` is the 0-based index of
the next line, `cur` the currently open section, `acc` the closed
sections in order. -/
def parseLoop (rules : List SecRule) :
    List String → Nat → Option SyntaxSection → List SyntaxSection → List SyntaxSection
  | [], _, cur, acc => acc ++ cur.toList
  | line :: rest, i, cur, acc =>
    match matchRule rules line with
    | some r =>
      parseLoop rules rest (i + 1) (some ⟨r.name, line, i + 1, i + 1⟩)
        (acc ++ (cur.map (fun s => { s with endLine := i - 1 })).toList)
    | none =>
      match cur with
      | some s =>
        parseLoop rules rest (i + 1)
          (some { s with content := s.content ++ "\n" ++ line, endLine := i + 1 }) acc
      | none => parseLoop rules rest (i + 1) none acc

/-- Function `parseSyntaxSections` generalized over the rule catalog. -/
def parseSectionsWith (rules : List SecRule) (content : String) : List SyntaxSection :=
  parseLoop rules (splitLines content) 0 none []

/-- Function `parseSyntaxSections` of the source, over the actual catalog. -/
def parseSyntaxSections (content : String) : List SyntaxSection :=
  parseSectionsWith sectionPatterns content

/-- One entry of the `TOPICS` table. -/
structure Topic where
  name : String
  keywords : List String
  description : String
  deriving DecidableEq

/-- The `TOPICS` table of the source, in declaration order. -/
def TOPICS : List Topic :=
  [ ⟨"operators",
     ["operator", "operators", "+", "-", "*", "/", "==", "!=", "<", ">", "<=", ">=",
      "and", "or", "not"],
     "Arithmetic, comparison, and boolean operators"⟩,
    ⟨"pattern_matching", ["match", "pattern", "case", "switch"],
     "Pattern matching with match expressions"⟩,
    ⟨"list_patterns", ["list", "array", "spread", ".."],
     "List destructuring and pattern matching"⟩,
    ⟨"tag_unions", ["tag", "union", "variant", "enum", "Ok", "Err", "Try"],
     "Tag unions (sum types) and Result/Try types"⟩,
    ⟨"strings", ["string", "str", "multiline", "interpolation", "unicode"],
     "String literals, multiline strings, and interpolation"⟩,
    ⟨"effects", ["effect", "effectful", "!", "io", "side effect"],
     "Effectful functions (marked with !)"⟩,
    ⟨"loops", ["for", "loop", "iterate", "var", "$"],
     "For loops and mutable variables"⟩,
    ⟨"conditionals", ["if", "else", "conditional", "branch"],
     "If/else expressions"⟩,
    ⟨"tuples", ["tuple", "pair", "triplet"],
     "Tuple types and destructuring"⟩,
    ⟨"records", ["record", "struct", "object", "field", "update"],
     "Record types, access, and updates"⟩,
    ⟨"types", ["type", "annotation", "signature", "where", "constraint"],
     "Type annotations and constraints"⟩,
    ⟨"numbers", ["number", "int", "float", "decimal", "u8", "i64", "f64", "hex", "binary"],
     "Numeric types and literals"⟩,
    ⟨"opaque", ["opaque", "::", "newtype", "wrapper"],
     "Opaque types for type-safe wrappers"⟩,
    ⟨"nominal", ["nominal", ":=", "custom", "method", "is_eq"],
     "Nominal types with custom methods"⟩,
    ⟨"functions", ["function", "lambda", "arrow", "=>", "->", "return"],
     "Function definitions and early returns"⟩,
    ⟨"imports", ["import", "module", "as", "alias"],
     "Module imports and aliases"⟩,
    ⟨"testing", ["test", "expect", "assert"],
     "Testing with expect and test blocks"⟩ ]

/-- The match test of the resolver loop in the `search_roc_syntax`
handler: `topic === queryLower || keywords.some(k =>
queryLower.includes(k) || k.includes(queryLower))`. -/
def topicMatches (ql : String) (t : Topic) : Bool :=
  t.name == ql || t.keywords.any (fun k => strIncludes ql k || strIncludes k ql)

/-- The topic resolver: lowercase the query and return the first topic of
the table (in declaration order) whose test succeeds. -/
def resolveTopic (query : String) : Option Topic :=
  firstSat (topicMatches (jsLower query)) TOPICS

/-- Expression `sections.find(s => s.name === n)?.content || ""` of the handler. -/
def sectionContentOr (secs : List SyntaxSection) (n : String) : String :=
  ((secs.find? (fun s => s.name == n)).map (fun s => s.content)).getD ""

/-- The literal unicode-escape example pushed unconditionally for the
`strings` topic. -/
def uniLit : String := "Unicode escape: \"\\u(00A0)\""

/-- The `switch (matchedTopic)` of the `search_roc_syntax` handler: the
list of contributions pushed onto `relevantSections` for topic `t`, given
the parsed sections and the raw lines of the document. -/
def contributionsFor (t : String) (secs : List SyntaxSection) (ls : List String) :
    List String :=
  match t with
  | "operators" =>
    [sectionContentOr secs "number_operators", sectionContentOr secs "boolean_operators"]
  | "pattern_matching" => [sectionContentOr secs "simple_match"]
  | "list_patterns" => [sectionContentOr secs "match_list_patterns"]
  | "tag_unions" => [sectionContentOr secs "match_tag_union_advanced"]
  | "strings" => [sectionContentOr secs "multiline_str", uniLit]
  | "effects" => [sectionContentOr secs "effect_demo"]
  | "loops" => [sectionContentOr secs "for_loop"]
  | "conditionals" => [sectionContentOr secs "if_demo"]
  | "tuples" => [sectionContentOr secs "tuple_demo"]
  | "records" =>
    [sectionContentOr secs "destructuring", sectionContentOr secs "record_update_2"]
  | "types" =>
    [sectionContentOr secs "type_var", sectionContentOr secs "where_clause"]
  | "numbers" => [sectionContentOr secs "number_literals"]
  | "opaque" => [sectionContentOr secs "opaque_types"]
  | "nominal" => [sectionContentOr secs "nominal_types"]
  | "functions" => [sectionContentOr secs "early_return"]
  | "imports" => [String.intercalate "\n" (ls.filter (fun l => strStarts l "import "))]
  | "testing" => [String.intercalate "\n" (ls.filter (fun l => strIncludes l "expect "))]
  | _ => []

/-- Expression `relevantSections.filter(Boolean).join("\n\n---\n\n")` of the handler. -/
def assembleExamples (t : String) (secs : List SyntaxSection) (ls : List String) : String :=
  String.intercalate "\n\n---\n\n"
    ((contributionsFor t secs ls).filter (fun s => !(s == "")))

/-- The fixed string returned by `loadSyntaxReference` when the file read
throws. -/
def sentinel : String := "Error: Could not load Roc syntax reference file."

/-- Function `loadSyntaxReference`: the `fs.readFileSync` result is modelled as an
`Except`, `error` carrying the failure detail that the catch block only
logs. -/
def loadSyntaxReference : Except String String → String
  | .ok s => s
  | .error _ => sentinel

/-- The response of the `get_roc_syntax` handler: the text content block
and the structured `syntax` field. -/
structure GetOut where
  text : String
  structured : String
  deriving DecidableEq

/-- The `get_roc_syntax` handler. -/
def getRocHandler (r : Except String String) : GetOut :=
  let s := loadSyntaxReference r
  ⟨s, s⟩

/-- The topic listing built by the no-match branch of
`search_roc_syntax`. -/
def topicCatalogText : String :=
  String.intercalate "\n" (TOPICS.map (fun t => "- " ++ t.name ++ ": " ++ t.description))

/-- The response of the `search_roc_syntax` handler: the text content
block and the three structured fields. -/
structure SearchOut where
  text : String
  topic : String
  description : String
  examples : String
  deriving DecidableEq

/-- The `search_roc_syntax` handler. -/
def searchRocHandler (query : String) (r : Except String String) : SearchOut :=
  let fullContent := loadSyntaxReference r
  let secs := parseSyntaxSections fullContent
  match resolveTopic query with
  | none =>
    ⟨"No exact match for \"" ++ query ++ "\". Available topics:\n\n" ++ topicCatalogText,
     "help", "Available topics", topicCatalogText⟩
  | some t =>
    let ls := splitLines fullContent
    let ex := assembleExamples t.name secs ls
    ⟨"## " ++ t.name ++ "\n\n" ++ t.description ++
       "\n\n### Examples:\n\n```roc\n" ++ ex ++ "\n```",
     t.name, t.description, ex⟩

/-- The `list_roc_topics` handler's structured `topics` field. -/
def listRocTopics : List (String × String) :=
  TOPICS.map (fun t => (t.name, t.description))

/-! ### Helper lemmas -/

theorem firstSat_eq_some_iff {α : Type} (p : α → Bool) (l : List α) (a : α) :
    firstSat p l = some a ↔
      ∃ l₁ l₂, l = l₁ ++ a :: l₂ ∧ p a = true ∧ ∀ u ∈ l₁, p u = false := by
  induction l with
  | nil =>
    simp only [firstSat]
    constructor
    · intro h; exact absurd h (by simp)
    · rintro ⟨l₁, l₂, heq, -, -⟩
      exact absurd heq (by simp)
  | cons b bs ih =>
    cases hb : p b with
    | true =>
      simp only [firstSat, hb, if_true]
      constructor
      · intro h
        obtain rfl : b = a := by injection h
        exact ⟨[], bs, rfl, hb, by simp⟩
      · rintro ⟨l₁, l₂, heq, hpa, hall⟩
        cases l₁ with
        | nil =>
          simp only [List.nil_append, List.cons.injEq] at heq
          rw [heq.1]
        | cons c cs =>
          simp only [List.cons_append, List.cons.injEq] at heq
          have hc : p c = false := hall c (by simp)
          rw [heq.1] at hb
          rw [hb] at hc
          exact absurd hc (by simp)
    | false =>
      simp only [firstSat, hb, Bool.false_eq_true, if_false]
      rw [ih]
      constructor
      · rintro ⟨l₁, l₂, heq, hpa, hall⟩
        refine ⟨b :: l₁, l₂, by rw [heq]; rfl, hpa, ?_⟩
        intro u hu
        rcases List.mem_cons.mp hu with h | h
        · rw [h]; exact hb
        · exact hall u h
      · rintro ⟨l₁, l₂, heq, hpa, hall⟩
        cases l₁ with
        | nil =>
          simp only [List.nil_append, List.cons.injEq] at heq
          rw [heq.1] at hb
          rw [hb] at hpa
          exact absurd hpa (by simp)
        | cons c cs =>
          simp only [List.cons_append, List.cons.injEq] at heq
          exact ⟨cs, l₂, heq.2, hpa, fun u hu => hall u (List.mem_cons_of_mem c hu)⟩

/-- Adjacency layout relation between a closed section and the section
opened by the line that closed it. -/
def secAdj (a b : SyntaxSection) : Prop :=
  a.endLine + 2 = b.startLine ∧ a.startLine < b.startLine

/-- Strict separation of two sections: both the recorded range end and
the range start of the earlier one lie before the start of the later. -/
def secSep (a b : SyntaxSection) : Prop :=
  a.endLine < b.startLine ∧ a.startLine < b.startLine

theorem chain'_append_singleton_congr {R : SyntaxSection → SyntaxSection → Prop}
    (acc : List SyntaxSection) (s s' : SyntaxSection)
    (h : ∀ x, R x s → R x s') (hc : List.Chain' R (acc ++ [s])) :
    List.Chain' R (acc ++ [s']) := by
  rw [List.chain'_append] at hc ⊢
  refine ⟨hc.1, List.chain'_singleton _, fun x hx y hy => ?_⟩
  simp only [List.head?] at hy
  cases hy
  exact h x (hc.2.2 x hx s (by simp [List.head?]))


theorem parseLoop_chain (rules : List SecRule) (lines : List String) :
    ∀ (i : Nat) (cur : Option SyntaxSection) (acc : List SyntaxSection),
      List.Chain' secAdj (acc ++ cur.toList) →
      (∀ s, cur = some s → 1 ≤ s.startLine ∧ s.startLine ≤ i) →
      (cur = none → acc = []) →
      List.Chain' secAdj (parseLoop rules lines i cur acc) := by
  induction lines with
  | nil =>
    intro i cur acc hchain _ _
    simpa [parseLoop] using hchain
  | cons line rest ih =>
    intro i cur acc hchain hcur hnil
    cases hm : matchRule rules line with
    | some r =>
      cases cur with
      | none =>
        have hacc : acc = [] := hnil rfl
        subst hacc
        simp only [parseLoop, hm, Option.map_none', Option.toList_none, List.append_nil,
          List.nil_append]
        apply ih
        · simp [Option.toList]
        · intro s hs
          injection hs with h
          subst h
          refine ⟨?_, ?_⟩
          · show 1 ≤ i + 1
            omega
          · show i + 1 ≤ i + 1
            omega
        · intro h
          exact absurd h (by simp)
      | some s =>
        obtain ⟨hs1, hs2⟩ := hcur s rfl
        have hchain' : List.Chain' secAdj (acc ++ [s]) := by
          simpa [Option.toList] using hchain
        simp only [parseLoop, hm, Option.map_some', Option.toList_some]
        apply ih
        · show List.Chain' secAdj ((acc ++ [{ s with endLine := i - 1 }]) ++ [⟨r.name, line, i + 1, i + 1⟩])
          have hstep : List.Chain' secAdj (acc ++ [{ s with endLine := i - 1 }]) :=
            chain'_append_singleton_congr acc s _ (fun x hx => hx) hchain'
          rw [List.chain'_append]
          refine ⟨hstep, List.chain'_singleton _, fun x hx y hy => ?_⟩
          rw [List.getLast?_concat] at hx
          simp only [Option.mem_def, Option.some.injEq] at hx
          simp only [List.head?, Option.mem_def, Option.some.injEq] at hy
          subst hx
          subst hy
          refine ⟨?_, ?_⟩
          · show (i - 1) + 2 = i + 1
            omega
          · show s.startLine < i + 1
            omega
        · intro t ht
          injection ht with h
          subst h
          refine ⟨?_, ?_⟩
          · show 1 ≤ i + 1
            omega
          · show i + 1 ≤ i + 1
            omega
        · intro h
          exact absurd h (by simp)
    | none =>
      cases cur with
      | none =>
        have hacc : acc = [] := hnil rfl
        subst hacc
        simp only [parseLoop, hm]
        exact ih (i + 1) none [] (by simp) (by intro s hs; cases hs) (fun _ => rfl)
      | some s =>
        obtain ⟨hs1, hs2⟩ := hcur s rfl
        have hchain' : List.Chain' secAdj (acc ++ [s]) := by
          simpa [Option.toList] using hchain
        simp only [parseLoop, hm]
        apply ih
        · show List.Chain' secAdj
            (acc ++ [{ s with content := s.content ++ "\n" ++ line, endLine := i + 1 }])
          exact chain'_append_singleton_congr acc s _ (fun x hx => hx) hchain'
        · intro t ht
          injection ht with h
          subst h
          refine ⟨?_, ?_⟩
          · show 1 ≤ s.startLine
            omega
          · show s.startLine ≤ i + 1
            omega
        · intro h
          exact absurd h (by simp)

theorem parseLoop_lower (rules : List SecRule) (lines : List String) :
    ∀ (i : Nat) (cur : Option SyntaxSection) (acc : List SyntaxSection) (m : Nat),
      m ≤ i + 1 →
      (∀ s ∈ acc, m ≤ s.startLine) →
      (∀ s, cur = some s → m ≤ s.startLine) →
      ∀ s ∈ parseLoop rules lines i cur acc, m ≤ s.startLine := by
  induction lines with
  | nil =>
    intro i cur acc m _ hacc hcur s hs
    simp only [parseLoop] at hs
    rcases List.mem_append.mp hs with h | h
    · exact hacc s h
    · cases cur with
      | none => cases h
      | some t =>
        simp only [Option.toList_some, List.mem_singleton] at h
        subst h
        exact hcur s rfl
  | cons line rest ih =>
    intro i cur acc m hm hacc hcur s hs
    cases hmr : matchRule rules line with
    | some r =>
      simp only [parseLoop, hmr] at hs
      refine ih (i + 1) _ _ m (by omega) ?_ ?_ s hs
      · intro t ht
        rcases List.mem_append.mp ht with h | h
        · exact hacc t h
        · cases cur with
          | none => cases h
          | some u =>
            simp only [Option.map_some', Option.toList_some, List.mem_singleton] at h
            subst h
            exact hcur u rfl
      · intro t ht
        injection ht with h
        subst h
        show m ≤ i + 1
        omega
    | none =>
      cases cur with
      | none =>
        simp only [parseLoop, hmr] at hs
        exact ih (i + 1) none acc m (by omega) hacc (by intro t ht; cases ht) s hs
      | some u =>
        simp only [parseLoop, hmr] at hs
        refine ih (i + 1) _ _ m (by omega) hacc ?_ s hs
        intro t ht
        injection ht with h
        subst h
        show m ≤ u.startLine
        exact hcur u rfl

/-- The 0-based index of the first line matched by any rule of the catalog
(the length of the list when no line matches). -/
def firstMatchIdx (rules : List SecRule) : List String → Nat
  | [] => 0
  | l :: ls =>
    match matchRule rules l with
    | some _ => 0
    | none => firstMatchIdx rules ls + 1

theorem parseLoop_skip (rules : List SecRule) (lines : List String) :
    ∀ i : Nat, ∀ s ∈ parseLoop rules lines i none [],
      i + firstMatchIdx rules lines + 1 ≤ s.startLine := by
  induction lines with
  | nil =>
    intro i s hs
    simp [parseLoop] at hs
  | cons line rest ih =>
    intro i s hs
    cases hmr : matchRule rules line with
    | some r =>
      simp only [parseLoop, hmr, Option.map_none', Option.toList_none, List.append_nil,
        List.nil_append] at hs
      have := parseLoop_lower rules rest (i + 1) (some ⟨r.name, line, i + 1, i + 1⟩) []
        (i + 1) (by omega) (by intro t ht; cases ht) ?_ s hs
      · simp only [firstMatchIdx, hmr]
        omega
      · intro t ht
        injection ht with h
        subst h
        show i + 1 ≤ i + 1
        omega
    | none =>
      simp only [parseLoop, hmr] at hs
      have := ih (i + 1) s hs
      simp only [firstMatchIdx, hmr]
      omega

/-! ### Resolver lemmas -/

theorem topicMatches_iff (ql : String) (t : Topic) :
    topicMatches ql t = true ↔
      (t.name = ql ∨
        ∃ k ∈ t.keywords, strIncludes ql k = true ∨ strIncludes k ql = true) := by
  simp [topicMatches, List.any_eq_true]

/-! ### Claim theorems -/

/-- C1 counterexample: the claim `resolve(T) == T` for every topic name
`T` of the table fails at `T = "list_patterns"`: the resolver returns the
earlier topic `pattern_matching`, whose keyword `"pattern"` is a
substring of `"list_patterns"`. -/
theorem resolve_self_name_cex :
    "list_patterns" ∈ TOPICS.map Topic.name ∧
    (resolveTopic "list_patterns").map Topic.name = some "pattern_matching" ∧
    (resolveTopic "list_patterns").map Topic.name ≠ some "list_patterns" := by
  refine ⟨by decide, by decide, by decide⟩

/-- C1 amended: the topic table has the 17 names listed below in this
order, `resolve(T) == T` holds for 12 of them, and the remaining five are
captured by an earlier topic: `list_patterns` by `pattern_matching`,
`conditionals` and `functions` by `effects` (keyword `"io"`), and
`records` and `imports` by `operators` (keyword `"or"`). -/
theorem resolve_self_name_amended :
    ((["operators", "pattern_matching", "tag_unions", "strings", "effects", "loops",
        "tuples", "types", "numbers", "opaque", "nominal", "testing"] : List String).all
      (fun t => (resolveTopic t).map Topic.name == some t)) = true ∧
    (resolveTopic "list_patterns").map Topic.name = some "pattern_matching" ∧
    (resolveTopic "conditionals").map Topic.name = some "effects" ∧
    (resolveTopic "records").map Topic.name = some "operators" ∧
    (resolveTopic "functions").map Topic.name = some "effects" ∧
    (resolveTopic "imports").map Topic.name = some "operators" ∧
    TOPICS.map Topic.name = ["operators", "pattern_matching", "list_patterns",
      "tag_unions", "strings", "effects", "loops", "conditionals", "tuples", "records",
      "types", "numbers", "opaque", "nominal", "functions", "imports", "testing"] := by
  refine ⟨by decide, by decide, by decide, by decide, by decide, by decide, by decide⟩

/-- C2 counterexample: the resolver does not signal "no match" on the
empty query or on "xyz-no-such-topic": both resolve to the first topic
`operators` (every keyword contains the empty string; the second query
contains the keyword "-"), so the search handler returns the `operators`
topic instead of the help listing. -/
theorem resolve_nomatch_cex :
    (resolveTopic "").map Topic.name = some "operators" ∧
    (resolveTopic "xyz-no-such-topic").map Topic.name = some "operators" ∧
    (searchRocHandler "" (Except.ok "")).topic = "operators" ∧
    (searchRocHandler "xyz-no-such-topic" (Except.ok "")).topic = "operators" := by
  refine ⟨by decide, by decide, by decide, by decide⟩

/-- C2 amended: `resolve("")` and `resolve("xyz-no-such-topic")` both
match the first topic `operators`, so for these two inputs the handler
returns that topic; a query that genuinely matches nothing, such as
"zzz", yields no match, and only then does the handler return the help
listing tagged with the sentinel topic "help". -/
theorem resolve_nomatch_amended :
    (resolveTopic "").map Topic.name = some "operators" ∧
    (resolveTopic "xyz-no-such-topic").map Topic.name = some "operators" ∧
    (searchRocHandler "" (Except.ok "")).topic = "operators" ∧
    (searchRocHandler "xyz-no-such-topic" (Except.ok "")).topic = "operators" ∧
    resolveTopic "zzz" = none ∧
    (searchRocHandler "zzz" (Except.ok "x")).topic = "help" ∧
    (searchRocHandler "zzz" (Except.ok "x")).description = "Available topics" ∧
    (searchRocHandler "zzz" (Except.ok "x")).examples = topicCatalogText := by
  refine ⟨by decide, by decide, by decide, by decide, by decide, by decide, by decide,
    by decide⟩

/-- C3: the resolver returns exactly the first topic of the table (in
declaration order) whose name equals the lowercased query or that has a
keyword in bidirectional substring containment with the lowercased
query; every earlier topic fails the test. -/
theorem resolver_first_match (q : String) (t : Topic) :
    resolveTopic q = some t ↔
      ∃ pre post, TOPICS = pre ++ t :: post ∧
        (t.name = jsLower q ∨
          ∃ k ∈ t.keywords,
            strIncludes (jsLower q) k = true ∨ strIncludes k (jsLower q) = true) ∧
        ∀ u ∈ pre,
          ¬(u.name = jsLower q ∨
            ∃ k ∈ u.keywords,
              strIncludes (jsLower q) k = true ∨ strIncludes k (jsLower q) = true) := by
  rw [show resolveTopic q = firstSat (topicMatches (jsLower q)) TOPICS from rfl,
    firstSat_eq_some_iff]
  constructor
  · rintro ⟨pre, post, heq, hpa, hall⟩
    refine ⟨pre, post, heq, (topicMatches_iff _ _).mp hpa, fun u hu => ?_⟩
    intro hcontra
    have := (topicMatches_iff (jsLower q) u).mpr hcontra
    rw [hall u hu] at this
    exact absurd this (by simp)
  · rintro ⟨pre, post, heq, hpa, hall⟩
    refine ⟨pre, post, heq, (topicMatches_iff _ _).mpr hpa, fun u hu => ?_⟩
    cases hmu : topicMatches (jsLower q) u with
    | false => rfl
    | true => exact absurd ((topicMatches_iff _ _).mp hmu) (hall u hu)

/-- C3 witness: the query "pattern matching" resolves to the
`pattern_matching` topic, the first (and only) matching table entry. -/
theorem resolver_first_match_witness :
    ∃ pre post,
      TOPICS = pre ++
        (⟨"pattern_matching", ["match", "pattern", "case", "switch"],
          "Pattern matching with match expressions"⟩ : Topic) :: post ∧
      ((⟨"pattern_matching", ["match", "pattern", "case", "switch"],
          "Pattern matching with match expressions"⟩ : Topic).name =
            jsLower "pattern matching" ∨
        ∃ k ∈ (⟨"pattern_matching", ["match", "pattern", "case", "switch"],
          "Pattern matching with match expressions"⟩ : Topic).keywords,
          strIncludes (jsLower "pattern matching") k = true ∨
          strIncludes k (jsLower "pattern matching") = true) ∧
      ∀ u ∈ pre,
        ¬(u.name = jsLower "pattern matching" ∨
          ∃ k ∈ u.keywords,
            strIncludes (jsLower "pattern matching") k = true ∨
            strIncludes k (jsLower "pattern matching") = true) :=
  (resolver_first_match "pattern matching"
    ⟨"pattern_matching", ["match", "pattern", "case", "switch"],
      "Pattern matching with match expressions"⟩).mp (by decide)

/-- The two synthetic rules of the parser test in the spec:
`{foo: /^foo:/, bar: /^bar=/}`. -/
def fooBarRules : List SecRule :=
  [⟨"foo", fun l => strStarts l "foo:"⟩, ⟨"bar", fun l => strStarts l "bar="⟩]

/-- C4: parsing the document with lines
`["junk", "foo:", "a", "b", "bar=", "c"]` against the two ordered rules
yields exactly the section `foo` (header plus "a" plus "b") and the
section `bar` (header plus "c"); the leading "junk" line occurs in no
section's content. -/
theorem parse_synthetic_doc :
    parseSectionsWith fooBarRules "junk\nfoo:\na\nb\nbar=\nc" =
      [⟨"foo", "foo:\na\nb", 2, 3⟩, ⟨"bar", "bar=\nc", 5, 6⟩] ∧
    (parseSectionsWith fooBarRules "junk\nfoo:\na\nb\nbar=\nc").all
      (fun s => !(strIncludes s.content "junk")) = true := by
  refine ⟨by decide, by decide⟩

/-- C5: when the file read succeeds the `get_roc_syntax` handler returns
the raw content unmodified, in both the text block and the structured
field; when the read fails both are the sentinel string instead. -/
theorem get_roundtrip (r : Except String String) :
    ((∀ s, r = Except.ok s →
        (getRocHandler r).text = s ∧ (getRocHandler r).structured = s) ∧
      (∀ e, r = Except.error e →
        (getRocHandler r).text = sentinel ∧ (getRocHandler r).structured = sentinel)) := by
  cases r with
  | ok s =>
    refine ⟨fun t ht => ?_, fun e he => Except.noConfusion he⟩
    injection ht with h
    subst h
    exact ⟨rfl, rfl⟩
  | error e =>
    refine ⟨fun t ht => Except.noConfusion ht, fun f hf => ?_⟩
    injection hf with h
    subst h
    exact ⟨rfl, rfl⟩

/-- C5 witness: the round trip at the concrete content "abc" and at a
concrete failure. -/
theorem get_roundtrip_witness :
    (getRocHandler (Except.ok "abc")).text = "abc" ∧
    (getRocHandler (Except.error "boom")).structured = sentinel :=
  ⟨((get_roundtrip (Except.ok "abc")).1 "abc" rfl).1,
    ((get_roundtrip (Except.error "boom")).2 "boom" rfl).2⟩

/-- C6 counterexample: on a read failure the loader returns the fixed
sentinel string, but that string does not embed the failure detail: for
the failure "ENOENT: no such file or directory" the returned string does
not contain "ENOENT" (the detail is only logged to the diagnostic
stream). -/
theorem loader_sentinel_cex :
    loadSyntaxReference (Except.error "ENOENT: no such file or directory") = sentinel ∧
    strIncludes sentinel "ENOENT" = false ∧
    sentinel = "Error: Could not load Roc syntax reference file." := by
  refine ⟨rfl, by decide, rfl⟩

/-- C6 amended: on any failure the loader does not raise: it returns the
fixed sentinel error string (which does not embed the failure detail),
and every caller proceeds treating that sentinel as document text — the
search handler on a failed read behaves exactly as on a successful read
whose content is the sentinel. -/
theorem loader_sentinel_amended (e q : String) :
    loadSyntaxReference (Except.error e) = sentinel ∧
    (getRocHandler (Except.error e)).text = sentinel ∧
    (getRocHandler (Except.error e)).structured = sentinel ∧
    searchRocHandler q (Except.error e) = searchRocHandler q (Except.ok sentinel) :=
  ⟨rfl, rfl, rfl, rfl⟩

/-- C6 witness: the amended behaviour at a concrete failure detail and a
concrete query. -/
theorem loader_sentinel_amended_witness :
    loadSyntaxReference (Except.error "EACCES") = sentinel ∧
    searchRocHandler "zzz" (Except.error "EACCES") =
      searchRocHandler "zzz" (Except.ok sentinel) :=
  ⟨(loader_sentinel_amended "EACCES" "zzz").1,
    (loader_sentinel_amended "EACCES" "zzz").2.2.2⟩

/-- C7: for any resolved topic, a mapped section name absent from the
parsed list contributes the empty string (never an error), the handler's
examples payload is the join, with separator "\n\n---\n\n", of the
topic's contributions after all empty ones are filtered out, and for the
`strings` topic the fixed unicode-escape literal is always among the
contributions. -/
theorem selector_assembly (q : String) (r : Except String String) (t : Topic)
    (hres : resolveTopic q = some t) :
    (∀ (secs : List SyntaxSection) (n : String),
        secs.find? (fun s => s.name == n) = none → sectionContentOr secs n = "") ∧
    (searchRocHandler q r).examples =
      String.intercalate "\n\n---\n\n"
        ((contributionsFor t.name (parseSyntaxSections (loadSyntaxReference r))
            (splitLines (loadSyntaxReference r))).filter (fun s => !(s == ""))) ∧
    (∀ (secs : List SyntaxSection) (ls : List String),
        uniLit ∈ contributionsFor "strings" secs ls) := by
  refine ⟨?_, ?_, ?_⟩
  · intro secs n h
    simp [sectionContentOr, h]
  · show (searchRocHandler q r).examples = assembleExamples t.name
      (parseSyntaxSections (loadSyntaxReference r)) (splitLines (loadSyntaxReference r))
    simp only [searchRocHandler, hres]
  · intro secs ls
    simp [contributionsFor]

/-- C7 witness: for the query "strings" over an empty document every
mapped section is missing, so the assembled examples reduce to the
unconditionally appended unicode-escape literal. -/
theorem selector_assembly_witness :
    (searchRocHandler "strings" (Except.ok "")).examples =
      "Unicode escape: \"\\u(00A0)\"" := by
  have h := (selector_assembly "strings" (Except.ok "")
      ⟨"strings", ["string", "str", "multiline", "interpolation", "unicode"],
        "String literals, multiline strings, and interpolation"⟩ (by decide)).2.1
  rw [h]
  decide

/-- C8: the sections produced by the parser are non-overlapping and
ordered by `startLine` (pairwise, both the recorded end and the start of
an earlier section lie strictly before the start of any later one, and
consecutive sections satisfy the exact closing offset), every section
starts strictly after the lines preceding the first rule match, and a
line matching more than one rule of the catalog is assigned the first
matching rule in catalog order. -/
theorem parse_layout_invariants (content : String) :
    List.Chain' secAdj (parseSyntaxSections content) ∧
    List.Pairwise secSep (parseSyntaxSections content) ∧
    (∀ s ∈ parseSyntaxSections content,
        firstMatchIdx sectionPatterns (splitLines content) + 1 ≤ s.startLine) ∧
    (∀ (line : String) (r : SecRule),
        matchRule sectionPatterns line = some r ↔
          ∃ pre post, sectionPatterns = pre ++ r :: post ∧ r.test line = true ∧
            ∀ u ∈ pre, u.test line = false) := by
  have hchain : List.Chain' secAdj (parseSyntaxSections content) :=
    parseLoop_chain sectionPatterns (splitLines content) 0 none [] (by simp)
      (by intro s hs; cases hs) (fun _ => rfl)
  refine ⟨hchain, ?_, ?_, ?_⟩
  · have h2 : List.Chain' secSep (parseSyntaxSections content) :=
      hchain.imp (fun a b hab => ⟨by obtain ⟨h1, h2⟩ := hab; omega, hab.2⟩)
    haveI : IsTrans SyntaxSection secSep :=
      ⟨fun a b c hab hbc => ⟨Nat.lt_trans hab.1 hbc.2, Nat.lt_trans hab.2 hbc.2⟩⟩
    exact List.chain'_iff_pairwise.mp h2
  · intro s hs
    have := parseLoop_skip sectionPatterns (splitLines content) 0 s hs
    omega
  · intro line r
    exact firstSat_eq_some_iff _ _ _

/-- C8 witness: the invariants at a concrete three-line document. -/
theorem parse_layout_invariants_witness :
    List.Pairwise secSep
      (parseSyntaxSections "number_operators:\nx\nboolean_operators:\ny") :=
  (parse_layout_invariants "number_operators:\nx\nboolean_operators:\ny").2.1

/-- C9: the `list_roc_topics` handler returns exactly one name and
description pair per table entry, in declaration order, with no
duplicate names, and each description equals the table's. -/
theorem list_topics_exact :
    listRocTopics = [("operators", "Arithmetic, comparison, and boolean operators"),
      ("pattern_matching", "Pattern matching with match expressions"),
      ("list_patterns", "List destructuring and pattern matching"),
      ("tag_unions", "Tag unions (sum types) and Result/Try types"),
      ("strings", "String literals, multiline strings, and interpolation"),
      ("effects", "Effectful functions (marked with !)"),
      ("loops", "For loops and mutable variables"),
      ("conditionals", "If/else expressions"),
      ("tuples", "Tuple types and destructuring"),
      ("records", "Record types, access, and updates"),
      ("types", "Type annotations and constraints"),
      ("numbers", "Numeric types and literals"),
      ("opaque", "Opaque types for type-safe wrappers"),
      ("nominal", "Nominal types with custom methods"),
      ("functions", "Function definitions and early returns"),
      ("imports", "Module imports and aliases"),
      ("testing", "Testing with expect and test blocks")] ∧
    listRocTopics = TOPICS.map (fun t => (t.name, t.description)) ∧
    listRocTopics.length = TOPICS.length ∧
    (listRocTopics.map Prod.fst).Nodup := by
  refine ⟨by decide, rfl, rfl, by decide⟩

/-- C10: when a section is closed by a matching line at 0-based index
`i`, its recorded `endLine` is `i - 1`, which is `startLine` of the next
section minus 2, one less than the 1-based index of the section's actual
last line; for two back-to-back matching lines the earlier section gets
`endLine = startLine - 1`, so `endLine < startLine`. -/
theorem endline_offset_convention (content : String) :
    List.Chain' (fun a b => a.endLine + 2 = b.startLine) (parseSyntaxSections content) ∧
    (parseSyntaxSections "number_operators:\nboolean_operators:").map
        (fun s => (s.name, s.startLine, s.endLine)) =
      [("number_operators", 1, 0), ("boolean_operators", 2, 2)] ∧
    (∃ s, (parseSyntaxSections "number_operators:\nboolean_operators:").head? = some s ∧
      s.endLine + 1 = s.startLine ∧ s.endLine < s.startLine) := by
  refine ⟨?_, by decide, ?_⟩
  · have hchain : List.Chain' secAdj (parseSyntaxSections content) :=
      parseLoop_chain sectionPatterns (splitLines content) 0 none [] (by simp)
        (by intro s hs; cases hs) (fun _ => rfl)
    exact hchain.imp (fun a b hab => hab.1)
  · exact ⟨⟨"number_operators", "number_operators:", 1, 0⟩, by decide, by decide, by decide⟩

/-- C10 witness: the closing-offset chain at a concrete document. -/
theorem endline_offset_convention_witness :
    List.Chain' (fun a b => a.endLine + 2 = b.startLine)
      (parseSyntaxSections "number_operators:\nx\nboolean_operators:") :=
  (endline_offset_convention "number_operators:\nx\nboolean_operators:").1
